import Mathlib

/-
Verification of the DNS message decoder of dns2tcp (dns2tcp.go):
the domain-name decoder getDomainName, the resource-record decoder
parseRR and the message decoder parseDNSMsg, embedded shallowly.

Conventions of the embedding:
* a Go byte is a value of Fin 256; the input buffer is a List of bytes;
* Go slice indexing and binary.BigEndian reads can panic at runtime,
  so every raw access goes through Option-valued helpers (none = panic)
  and each decoder returns a value of the Res monad whose .panic
  constructor marks an out-of-bounds access and whose .oom constructor
  marks exhaustion of the loop-iteration budget of the name decoder;
* the unbounded for-loop of getDomainName is embedded with an explicit
  iteration budget (fuel).  The budget 11 * (length + 1) dominates the
  loop's true iteration count (at most 10 pointer hops, and strictly
  forward motion between hops), which is proved below (gdnFuel_total):
  no input ever exhausts it, so .oom is unreachable and the embedding
  computes exactly the Go loop.
-/

set_option maxHeartbeats 1000000

/-- Go bytes. -/
abbrev Byte := Fin 256

/-- Go indexing data[i]: panics (none) when i is out of range. -/
def idx (data : List Byte) (i : Nat) : Option Byte :=
  if h : i < data.length then some (data.get ⟨i, h⟩) else none

/-- Go binary.BigEndian.Uint16(data[i:]): none models the runtime panic. -/
def beUint16 (data : List Byte) (i : Nat) : Option Nat :=
  match idx data i, idx data (i + 1) with
  | some a, some b => some (a.val * 256 + b.val)
  | _, _ => none

/-- Go binary.BigEndian.Uint32(data[i:]): none models the runtime panic. -/
def beUint32 (data : List Byte) (i : Nat) : Option Nat :=
  match idx data i, idx data (i + 1), idx data (i + 2), idx data (i + 3) with
  | some a, some b, some c, some d =>
      some (((a.val * 256 + b.val) * 256 + c.val) * 256 + d.val)
  | _, _, _, _ => none

/-- Go slice expression data[a:b]: none models the panic on invalid bounds. -/
def goSlice (data : List Byte) (a b : Nat) : Option (List Byte) :=
  if a ≤ b ∧ b ≤ data.length then some ((data.drop a).take (b - a)) else none

/-- Go string conversion string(bs) on the label bytes. -/
def bytesToString (bs : List Byte) : String :=
  String.mk (bs.map (fun b => Char.ofNat b.val))

/-- Itob from dns2tcp.go: false exactly on zero. -/
def Itob (x : Nat) : Bool := if x = 0 then false else true

/-- The decode errors produced by the three decoders, one constructor per
errors.New site of dns2tcp.go. -/
inductive DnsErr where
  | eofName          -- "reached end of data buffer"
  | labelExceeds     -- "label length exceeds data buffer"
  | tooManyPtrs      -- "too many compression pointers"
  | incompletePtr    -- "incomplete pointer offset"
  | invalidPtrDest   -- "invalid pointer destination"
  | invalidLabelType -- "invalid label type"
  | headerTooShort   -- "data too short for DNS header"
  | insuffQFields    -- "insufficient data for Qtype/Qclass"
  | eofQuestions     -- "EOF parsing questions"
  | insuffRRHeader   -- "insufficient data for RR header"
  | rdataExceeds     -- "rdata length exceeds data buffer"
  | eofAnswers       -- "EOF parsing answers"
  | eofAuthority     -- "EOF parsing authority RRs"
  | eofAdditional    -- "EOF parsing additional RRs"
deriving Repr, DecidableEq

/-- Outcome of running a decoder: ok carries the Go return values, panic
marks a Go runtime panic (out-of-bounds access), oom marks exhaustion of
the embedded loop budget (proved unreachable). -/
inductive Res (α : Type) where
  | panic : Res α
  | oom : Res α
  | ok : α → Res α
deriving Repr, DecidableEq

/-- Header dnsMsgHdr of dns2tcp.go; field defaults are the Go zero values. -/
structure dnsMsgHdr where
  id : Nat := 0
  response : Bool := false
  opcode : Nat := 0
  authoritative : Bool := false
  truncated : Bool := false
  recursion_desired : Bool := false
  recursion_available : Bool := false
  rcode : Nat := 0
  question_num : Nat := 0
  answer_num : Nat := 0
  authority_num : Nat := 0
  additional_num : Nat := 0
deriving Repr, DecidableEq

/-- Question entry dnsQuestion of dns2tcp.go. -/
structure dnsQuestion where
  Name : String := ""
  Qtype : Nat := 0
  Qclass : Nat := 0
deriving Repr, DecidableEq

/-- Resource record dnsRR of dns2tcp.go. -/
structure dnsRR where
  Name : String := ""
  Rrtype : Nat := 0
  Class : Nat := 0
  Ttl : Nat := 0
  Rdlength : Nat := 0
  Data : List Byte := []
deriving Repr, DecidableEq

/-- Message dnsMsg of dns2tcp.go (header embedded, then the four sections). -/
structure dnsMsg extends dnsMsgHdr where
  question : List dnsQuestion := []
  answer : List dnsRR := []
  ns : List dnsRR := []
  extra : List dnsRR := []
deriving Repr, DecidableEq

/-- The for-loop of getDomainName.  State: pos is currentReadPos, cnt is
pointerFollowCount, pafp is posAfterFirstPointer (0 meaning unset, as in
the Go int), labels the labels accumulated so far.  The first argument of
the loop is the remaining iteration budget; .oom (budget exhausted) is
proved unreachable for the budget used by getDomainName. -/
def gdnFuel (data : List Byte) (initialCursor : Nat) :
    Nat → Nat → Nat → Nat → List String → Res (String × Nat × Option DnsErr)
  | 0, _, _, _, _ => .oom
  | fuel + 1, pos, cnt, pafp, labels =>
    if pos ≥ data.length then
      .ok ("", initialCursor, some .eofName)
    else
      match idx data pos with
      | none => .panic
      | some labelSize =>
        if labelSize = (0 : Byte) then
          (if cnt > 0 then .ok (String.intercalate "." labels, pafp, none)
           else .ok (String.intercalate "." labels, pos + 1, none))
        else if labelSize.val &&& 0xC0 = 0x00 then
          if pos + 1 + labelSize.val > data.length then
            .ok ("", initialCursor, some .labelExceeds)
          else
            match goSlice data (pos + 1) (pos + 1 + labelSize.val) with
            | none => .panic
            | some lab =>
                gdnFuel data initialCursor fuel (pos + 1 + labelSize.val) cnt pafp
                  (labels ++ [bytesToString lab])
        else if labelSize.val &&& 0xC0 = 0xC0 then
          let pafp1 := if cnt = 0 then pos + 2 else pafp
          if cnt + 1 > 10 then
            .ok ("Too many compression pointers",
                 if pafp1 ≠ 0 then pafp1 else initialCursor, some .tooManyPtrs)
          else if pos + 1 ≥ data.length then
            .ok ("", initialCursor, some .incompletePtr)
          else
            match idx data (pos + 1) with
            | none => .panic
            | some secondByte =>
              let dest := ((labelSize.val &&& 0x3F) <<< 8) ||| secondByte.val
              if dest ≥ data.length then
                .ok ("", initialCursor, some .invalidPtrDest)
              else gdnFuel data initialCursor fuel dest (cnt + 1) pafp1 labels
        else
          .ok ("", initialCursor, some .invalidLabelType)

/-- Run the getDomainName loop from an arbitrary loop state, with the
standard (provably sufficient) iteration budget. -/
def gdnFrom (data : List Byte) (initialCursor pos cnt pafp : Nat)
    (labels : List String) : Res (String × Nat × Option DnsErr) :=
  gdnFuel data initialCursor (11 * (data.length + 1)) pos cnt pafp labels

/-- getDomainName of dns2tcp.go: returns (name, next cursor, error). -/
def getDomainName (data : List Byte) (cursor : Nat) :
    Res (String × Nat × Option DnsErr) :=
  gdnFrom data cursor cursor 0 0 []

/-- parseRR of dns2tcp.go: a name, a 10-byte fixed header, then Rdlength
bytes of rdata, each step bounds-checked. -/
def parseRR (data : List Byte) (cursor : Nat) : Res (dnsRR × Nat × Option DnsErr) :=
  match getDomainName data cursor with
  | .panic => .panic
  | .oom => .oom
  | .ok (name, c1, some e) => .ok ({ Name := name }, c1, some e)
  | .ok (name, c1, none) =>
    if c1 + 10 > data.length then
      .ok ({ Name := name }, c1, some .insuffRRHeader)
    else
      match beUint16 data c1, beUint16 data (c1 + 2), beUint32 data (c1 + 4),
            beUint16 data (c1 + 8) with
      | some rt, some cl, some ttl, some rdl =>
        if c1 + 10 + rdl > data.length then
          .ok ({ Name := name, Rrtype := rt, Class := cl, Ttl := ttl,
                 Rdlength := rdl }, c1 + 10, some .rdataExceeds)
        else
          match goSlice data (c1 + 10) (c1 + 10 + rdl) with
          | none => .panic
          | some d =>
            .ok ({ Name := name, Rrtype := rt, Class := cl, Ttl := ttl,
                   Rdlength := rdl, Data := d }, c1 + 10 + rdl, none)
      | _, _, _, _ => .panic

/-- The question loop of parseDNSMsg: n entries remain, cursor is the scan
position, acc the questions decoded so far. -/
def parseQLoop (data : List Byte) :
    Nat → Nat → List dnsQuestion → Res (List dnsQuestion × Nat × Option DnsErr)
  | 0, cursor, acc => .ok (acc, cursor, none)
  | n + 1, cursor, acc =>
    if cursor ≥ data.length then .ok (acc, cursor, some .eofQuestions)
    else
      match getDomainName data cursor with
      | .panic => .panic
      | .oom => .oom
      | .ok (_, c1, some e) => .ok (acc, c1, some e)
      | .ok (name, c1, none) =>
        if c1 + 4 > data.length then .ok (acc, c1, some .insuffQFields)
        else
          match beUint16 data c1, beUint16 data (c1 + 2) with
          | some qt, some qc =>
              parseQLoop data n (c1 + 4)
                (acc ++ [{ Name := name, Qtype := qt, Qclass := qc }])
          | _, _ => .panic

/-- The three resource-record loops of parseDNSMsg, parameterised by the
per-section end-of-data error. -/
def parseRRLoop (data : List Byte) (eofErr : DnsErr) :
    Nat → Nat → List dnsRR → Res (List dnsRR × Nat × Option DnsErr)
  | 0, cursor, acc => .ok (acc, cursor, none)
  | n + 1, cursor, acc =>
    if cursor ≥ data.length then .ok (acc, cursor, some eofErr)
    else
      match parseRR data cursor with
      | .panic => .panic
      | .oom => .oom
      | .ok (_, c1, some e) => .ok (acc, c1, some e)
      | .ok (rr, c1, none) => parseRRLoop data eofErr n c1 (acc ++ [rr])

/-- parseDNSMsg of dns2tcp.go.  The header is decoded at the fixed offsets
0,2,4,6,8,10; msg.response is assigned the constant true; the flag bits
are extracted from the 16-bit word at offset 2 exactly as in the source.
On an error in a section loop the message returned holds the header and
the sections completed before that loop, like the Go early returns. -/
def parseDNSMsg (data : List Byte) : Res (dnsMsg × Option DnsErr) :=
  if data.length < 12 then .ok ({}, some .headerTooShort)
  else
    match beUint16 data 0, beUint16 data 2, beUint16 data 4, beUint16 data 6,
          beUint16 data 8, beUint16 data 10 with
    | some i, some dnsmisc, some qn, some an, some authn, some addn =>
      let hdr : dnsMsgHdr :=
        { id := i
          response := true
          opcode := (dnsmisc >>> 11) &&& 0x000F
          authoritative := Itob ((dnsmisc &&& 0x0400) >>> 10)
          truncated := Itob ((dnsmisc &&& 0x0200) >>> 9)
          recursion_desired := Itob ((dnsmisc &&& 0x0100) >>> 8)
          recursion_available := Itob ((dnsmisc &&& 0x00F0) >>> 7)
          rcode := dnsmisc &&& 0x000F
          question_num := qn
          answer_num := an
          authority_num := authn
          additional_num := addn }
      match parseQLoop data qn 12 [] with
      | .panic => .panic
      | .oom => .oom
      | .ok (_, _, some e) => .ok ({ todnsMsgHdr := hdr }, some e)
      | .ok (qs, c1, none) =>
        match parseRRLoop data .eofAnswers an c1 [] with
        | .panic => .panic
        | .oom => .oom
        | .ok (_, _, some e) => .ok ({ todnsMsgHdr := hdr, question := qs }, some e)
        | .ok (ans, c2, none) =>
          match parseRRLoop data .eofAuthority authn c2 [] with
          | .panic => .panic
          | .oom => .oom
          | .ok (_, _, some e) =>
              .ok ({ todnsMsgHdr := hdr, question := qs, answer := ans }, some e)
          | .ok (nss, c3, none) =>
            match parseRRLoop data .eofAdditional addn c3 [] with
            | .panic => .panic
            | .oom => .oom
            | .ok (_, _, some e) =>
                .ok ({ todnsMsgHdr := hdr, question := qs, answer := ans,
                       ns := nss }, some e)
            | .ok (ext, _, none) =>
                .ok ({ todnsMsgHdr := hdr, question := qs, answer := ans,
                       ns := nss, extra := ext }, none)
    | _, _, _, _, _, _ => .panic

/-- What the plain (pre-pointer) part of a name walk hits first:
either the terminating zero byte (term carries the position right after
it) or the first compression pointer (ptrAt carries its position). -/
inductive ScanHit where
  | term (endPos : Nat)
  | ptrAt (site : Nat)
deriving Repr, DecidableEq

/-- Observer of the label walk before the first pointer: from pos, skip
labels until the terminating zero or the first pointer byte; none when the
walk leaves the buffer or meets a reserved label type.  Fueled exactly
like the walk itself. -/
def plainScanF (data : List Byte) : Nat → Nat → Option ScanHit
  | 0, _ => none
  | fuel + 1, pos =>
    if h : pos < data.length then
      let b := data.get ⟨pos, h⟩
      if b = (0 : Byte) then some (.term (pos + 1))
      else if b.val &&& 0xC0 = 0x00 then plainScanF data fuel (pos + 1 + b.val)
      else if b.val &&& 0xC0 = 0xC0 then some (.ptrAt pos)
      else none
    else none

/-- plainScanF with its standard sufficient fuel. -/
def plainScan (data : List Byte) (pos : Nat) : Option ScanHit :=
  plainScanF data (data.length + 1) pos

/-- The labels collected by the walk before the first pointer. -/
def plainAccF (data : List Byte) : Nat → Nat → List String
  | 0, _ => []
  | fuel + 1, pos =>
    if h : pos < data.length then
      let b := data.get ⟨pos, h⟩
      if b = (0 : Byte) then []
      else if b.val &&& 0xC0 = 0x00 then
        bytesToString ((data.drop (pos + 1)).take b.val) ::
          plainAccF data fuel (pos + 1 + b.val)
      else []
    else []

/-- plainAccF with its standard sufficient fuel. -/
def plainAcc (data : List Byte) (pos : Nat) : List String :=
  plainAccF data (data.length + 1) pos

/-- A 12-byte all-zero message: empty header, no questions or records. -/
def zeros12 : List Byte := List.replicate 12 0

/-- What parseDNSMsg returns on zeros12: every header field zero except
response, which the source assigns the constant true. -/
def zeroRespMsg : dnsMsg := { response := true }

/-- The reference test message of dns2tcp_test.go
(TestParseDNSMsgWithCompression): id 0x1234, flags 0x8180, one question
test.example.com A IN, answers sub1.test.example.com (uncompressed) and
sub2.test.example.com (suffix compressed via a pointer to offset 12),
both A IN, TTL 225, rdata 192.0.2.1 and 192.0.2.2. -/
def c6bytes : List Byte :=
  [0x12, 0x34, 0x81, 0x80, 0x00, 0x01, 0x00, 0x02, 0x00, 0x00, 0x00, 0x00,
   0x04, 0x74, 0x65, 0x73, 0x74,
   0x07, 0x65, 0x78, 0x61, 0x6d, 0x70, 0x6c, 0x65,
   0x03, 0x63, 0x6f, 0x6d,
   0x00, 0x00, 0x01, 0x00, 0x01,
   0x04, 0x73, 0x75, 0x62, 0x31,
   0x04, 0x74, 0x65, 0x73, 0x74,
   0x07, 0x65, 0x78, 0x61, 0x6d, 0x70, 0x6c, 0x65,
   0x03, 0x63, 0x6f, 0x6d,
   0x00, 0x00, 0x01, 0x00, 0x01, 0x00, 0x00, 0x00, 0xE1, 0x00, 0x04,
   192, 0, 2, 1,
   0x04, 0x73, 0x75, 0x62, 0x32,
   0xc0, 0x0c, 0x00, 0x01, 0x00, 0x01, 0x00, 0x00, 0x00, 0xE1, 0x00, 0x04,
   192, 0, 2, 2]

/-- The exact decode of c6bytes asserted by the test. -/
def c6msg : dnsMsg :=
  { id := 0x1234, response := true, opcode := 0, authoritative := false,
    truncated := false, recursion_desired := true, recursion_available := true,
    rcode := 0, question_num := 1, answer_num := 2, authority_num := 0,
    additional_num := 0,
    question := [{ Name := "test.example.com", Qtype := 1, Qclass := 1 }],
    answer := [{ Name := "sub1.test.example.com", Rrtype := 1, Class := 1,
                 Ttl := 225, Rdlength := 4, Data := [192, 0, 2, 1] },
               { Name := "sub2.test.example.com", Rrtype := 1, Class := 1,
                 Ttl := 225, Rdlength := 4, Data := [192, 0, 2, 2] }] }

/-- The name foo at offset 0, and at offset 5 a compression pointer back
to it: getDomainName at 5 follows one pointer. -/
def nameWithPtr : List Byte := [3, 0x66, 0x6f, 0x6f, 0, 0xC0, 0x00]

/-- A two-byte buffer whose only content is a pointer targeting itself. -/
def selfPtr : List Byte := [0xC0, 0x00]

/-- A pointer whose 14-bit destination (16) is at or past the end of the
two-byte buffer. -/
def ptrOOR : List Byte := [0xC0, 0x10]

/-- A one-byte label whose declared length 1 makes it end exactly at the
end of the buffer, with no terminating zero after it. -/
def labelToEnd : List Byte := [1, 0x41]

/-! ### Basic lemmas about the access helpers -/

theorem idx_eq (data : List Byte) (i : Nat) (h : i < data.length) :
    idx data i = some (data.get ⟨i, h⟩) := by
  simp [idx, h]

theorem idx_lt {data : List Byte} {i : Nat} {b : Byte}
    (h : idx data i = some b) : i < data.length := by
  by_contra hc
  simp [idx, hc] at h

theorem idx_get {data : List Byte} {i : Nat} {b : Byte}
    (h : idx data i = some b) : ∀ hi : i < data.length, data.get ⟨i, hi⟩ = b := by
  intro hi
  rw [idx_eq data i hi] at h
  exact (Option.some.injEq _ _ ▸ h)

theorem beUint16_inv {data : List Byte} {i v : Nat}
    (h : beUint16 data i = some v) :
    ∃ a b : Byte, idx data i = some a ∧ idx data (i + 1) = some b ∧
      v = a.val * 256 + b.val := by
  unfold beUint16 at h
  rcases ha : idx data i with _ | a <;> rcases hb : idx data (i + 1) with _ | b <;>
    simp [ha, hb] at h
  exact ⟨a, b, rfl, rfl, h.symm⟩

theorem beUint16_exists (data : List Byte) (i : Nat) (h : i + 1 < data.length) :
    ∃ v, beUint16 data i = some v := by
  have h0 : i < data.length := by omega
  unfold beUint16
  rw [idx_eq data i h0, idx_eq data (i + 1) h]
  exact ⟨_, rfl⟩

theorem beUint32_exists (data : List Byte) (i : Nat) (h : i + 3 < data.length) :
    ∃ v, beUint32 data i = some v := by
  have h0 : i < data.length := by omega
  have h1 : i + 1 < data.length := by omega
  have h2 : i + 2 < data.length := by omega
  unfold beUint32
  rw [idx_eq data i h0, idx_eq data (i + 1) h1, idx_eq data (i + 2) h2,
      idx_eq data (i + 3) h]
  exact ⟨_, rfl⟩

theorem goSlice_eq (data : List Byte) (a b : Nat) (h1 : a ≤ b)
    (h2 : b ≤ data.length) :
    goSlice data a b = some ((data.drop a).take (b - a)) := by
  simp [goSlice, h1, h2]

/-! ### Fuel lemmas for the getDomainName loop -/

theorem gdnFuel_mono (data : List Byte) (ic : Nat) :
    ∀ f f' pos cnt pafp L v, gdnFuel data ic f pos cnt pafp L = .ok v →
      f ≤ f' → gdnFuel data ic f' pos cnt pafp L = .ok v := by
  intro f
  induction f with
  | zero => intro f' pos cnt pafp L v h _; simp [gdnFuel] at h
  | succ g ih =>
    intro f' pos cnt pafp L v h hle
    obtain ⟨g', rfl⟩ : ∃ g', f' = g' + 1 := ⟨f' - 1, by omega⟩
    have hgg : g ≤ g' := by omega
    by_cases h1 : pos ≥ data.length
    · simp only [gdnFuel, if_pos h1] at h ⊢; exact h
    · simp only [gdnFuel, if_neg h1] at h ⊢
      have hpos : pos < data.length := by omega
      rw [idx_eq data pos hpos] at h ⊢
      simp only at h ⊢
      by_cases hz : data.get ⟨pos, hpos⟩ = (0 : Byte)
      · simp only [if_pos hz] at h ⊢; exact h
      · simp only [if_neg hz] at h ⊢
        by_cases hlab : (data.get ⟨pos, hpos⟩).val &&& 0xC0 = 0x00
        · simp only [if_pos hlab] at h ⊢
          by_cases hfit : pos + 1 + (data.get ⟨pos, hpos⟩).val > data.length
          · simp only [if_pos hfit] at h ⊢; exact h
          · simp only [if_neg hfit] at h ⊢
            rw [goSlice_eq data (pos + 1) (pos + 1 + (data.get ⟨pos, hpos⟩).val)
              (by omega) (by omega)] at h ⊢
            simp only at h ⊢
            exact ih _ _ _ _ _ _ h hgg
        · simp only [if_neg hlab] at h ⊢
          by_cases hptr : (data.get ⟨pos, hpos⟩).val &&& 0xC0 = 0xC0
          · simp only [if_pos hptr] at h ⊢
            by_cases hcap : cnt + 1 > 10
            · simp only [if_pos hcap] at h ⊢; exact h
            · simp only [if_neg hcap] at h ⊢
              by_cases hsb : pos + 1 ≥ data.length
              · simp only [if_pos hsb] at h ⊢; exact h
              · simp only [if_neg hsb] at h ⊢
                have hpos1 : pos + 1 < data.length := by omega
                rw [idx_eq data (pos + 1) hpos1] at h ⊢
                simp only at h ⊢
                by_cases hdest :
                    (((data.get ⟨pos, hpos⟩).val &&& 0x3F) <<< 8) |||
                      (data.get ⟨pos + 1, hpos1⟩).val ≥ data.length
                · simp only [if_pos hdest] at h ⊢; exact h
                · simp only [if_neg hdest] at h ⊢
                  exact ih _ _ _ _ _ _ h hgg
          · simp only [if_neg hptr] at h ⊢; exact h

theorem gdnFuel_total (data : List Byte) (ic : Nat) :
    ∀ f pos cnt pafp L, cnt ≤ 10 → 1 ≤ f →
      (11 - cnt) * (data.length + 1) ≤ f + pos →
      ∃ v, gdnFuel data ic f pos cnt pafp L = .ok v := by
  intro f
  induction f with
  | zero => intro pos cnt pafp L _ h _; omega
  | succ g ih =>
    intro pos cnt pafp L hcnt _ hinv
    by_cases h1 : pos ≥ data.length
    · simp only [gdnFuel, if_pos h1]; exact ⟨_, rfl⟩
    · have hpos : pos < data.length := by omega
      have hP : data.length + 1 ≤ (11 - cnt) * (data.length + 1) :=
        Nat.le_mul_of_pos_left _ (by omega)
      simp only [gdnFuel, if_neg h1]
      rw [idx_eq data pos hpos]
      simp only
      by_cases hz : data.get ⟨pos, hpos⟩ = (0 : Byte)
      · simp only [if_pos hz]
        split <;> exact ⟨_, rfl⟩
      · simp only [if_neg hz]
        by_cases hlab : (data.get ⟨pos, hpos⟩).val &&& 0xC0 = 0x00
        · simp only [if_pos hlab]
          by_cases hfit : pos + 1 + (data.get ⟨pos, hpos⟩).val > data.length
          · simp only [if_pos hfit]; exact ⟨_, rfl⟩
          · simp only [if_neg hfit]
            rw [goSlice_eq data (pos + 1) (pos + 1 + (data.get ⟨pos, hpos⟩).val)
              (by omega) (by omega)]
            simp only
            exact ih _ _ _ _ hcnt (by omega) (by omega)
        · simp only [if_neg hlab]
          by_cases hptr : (data.get ⟨pos, hpos⟩).val &&& 0xC0 = 0xC0
          · simp only [if_pos hptr]
            by_cases hcap : cnt + 1 > 10
            · simp only [if_pos hcap]; exact ⟨_, rfl⟩
            · simp only [if_neg hcap]
              by_cases hsb : pos + 1 ≥ data.length
              · simp only [if_pos hsb]; exact ⟨_, rfl⟩
              · simp only [if_neg hsb]
                have hpos1 : pos + 1 < data.length := by omega
                rw [idx_eq data (pos + 1) hpos1]
                simp only
                by_cases hdest :
                    (((data.get ⟨pos, hpos⟩).val &&& 0x3F) <<< 8) |||
                      (data.get ⟨pos + 1, hpos1⟩).val ≥ data.length
                · simp only [if_pos hdest]; exact ⟨_, rfl⟩
                · simp only [if_neg hdest]
                  have hsplit : (11 - cnt) * (data.length + 1) =
                      (11 - (cnt + 1)) * (data.length + 1) + (data.length + 1) := by
                    rw [show 11 - cnt = (11 - (cnt + 1)) + 1 by omega, Nat.succ_mul]
                  exact ih _ _ _ _ (by omega) (by omega) (by omega)
          · simp only [if_neg hptr]; exact ⟨_, rfl⟩

theorem gdn_pafp_inv (data : List Byte) (ic : Nat) :
    ∀ f pos cnt pafp L nm off e, 1 ≤ cnt → 1 ≤ pafp →
      gdnFuel data ic f pos cnt pafp L = .ok (nm, off, e) →
      (e = none → off = pafp) ∧
      (e = some .tooManyPtrs →
        nm = "Too many compression pointers" ∧ off = pafp) := by
  intro f
  induction f with
  | zero => intro pos cnt pafp L nm off e _ _ h; simp [gdnFuel] at h
  | succ g ih =>
    intro pos cnt pafp L nm off e hcnt hpafp h
    by_cases h1 : pos ≥ data.length
    · simp only [gdnFuel, if_pos h1, Res.ok.injEq, Prod.mk.injEq] at h
      obtain ⟨rfl, rfl, rfl⟩ := h
      exact ⟨fun he => by simp at he, fun he => by simp at he⟩
    · have hpos : pos < data.length := by omega
      simp only [gdnFuel, if_neg h1] at h
      rw [idx_eq data pos hpos] at h
      simp only at h
      by_cases hz : data.get ⟨pos, hpos⟩ = (0 : Byte)
      · simp only [if_pos hz, if_pos (show cnt > 0 by omega), Res.ok.injEq,
          Prod.mk.injEq] at h
        obtain ⟨rfl, rfl, rfl⟩ := h
        exact ⟨fun _ => rfl, fun he => by simp at he⟩
      · simp only [if_neg hz] at h
        by_cases hlab : (data.get ⟨pos, hpos⟩).val &&& 0xC0 = 0x00
        · simp only [if_pos hlab] at h
          by_cases hfit : pos + 1 + (data.get ⟨pos, hpos⟩).val > data.length
          · simp only [if_pos hfit, Res.ok.injEq, Prod.mk.injEq] at h
            obtain ⟨rfl, rfl, rfl⟩ := h
            exact ⟨fun he => by simp at he, fun he => by simp at he⟩
          · simp only [if_neg hfit] at h
            rw [goSlice_eq data (pos + 1) (pos + 1 + (data.get ⟨pos, hpos⟩).val)
              (by omega) (by omega)] at h
            simp only at h
            exact ih _ _ _ _ _ _ _ hcnt hpafp h
        · simp only [if_neg hlab] at h
          by_cases hptr : (data.get ⟨pos, hpos⟩).val &&& 0xC0 = 0xC0
          · simp only [if_pos hptr, if_neg (show ¬cnt = 0 by omega)] at h
            by_cases hcap : cnt + 1 > 10
            · simp only [if_pos hcap, if_pos (show pafp ≠ 0 by omega),
                Res.ok.injEq, Prod.mk.injEq] at h
              obtain ⟨rfl, rfl, rfl⟩ := h
              exact ⟨fun he => by simp at he, fun _ => ⟨rfl, rfl⟩⟩
            · simp only [if_neg hcap] at h
              by_cases hsb : pos + 1 ≥ data.length
              · simp only [if_pos hsb, Res.ok.injEq, Prod.mk.injEq] at h
                obtain ⟨rfl, rfl, rfl⟩ := h
                exact ⟨fun he => by simp at he, fun he => by simp at he⟩
              · simp only [if_neg hsb] at h
                have hpos1 : pos + 1 < data.length := by omega
                rw [idx_eq data (pos + 1) hpos1] at h
                simp only at h
                by_cases hdest :
                    (((data.get ⟨pos, hpos⟩).val &&& 0x3F) <<< 8) |||
                      (data.get ⟨pos + 1, hpos1⟩).val ≥ data.length
                · simp only [if_pos hdest, Res.ok.injEq, Prod.mk.injEq] at h
                  obtain ⟨rfl, rfl, rfl⟩ := h
                  exact ⟨fun he => by simp at he, fun he => by simp at he⟩
                · simp only [if_neg hdest] at h
                  exact ih _ _ _ _ _ _ _ (by omega) hpafp h
          · simp only [if_neg hptr, Res.ok.injEq, Prod.mk.injEq] at h
            obtain ⟨rfl, rfl, rfl⟩ := h
            exact ⟨fun he => by simp at he, fun he => by simp at he⟩

/-! ### Single-step unfolding lemmas for the loop at its standard budget -/

theorem gdnFrom_succ (data : List Byte) :
    ∃ g, 11 * (data.length + 1) = g + 1 ∧ 10 * (data.length + 1) ≤ g := by
  exact ⟨11 * (data.length + 1) - 1, by omega, by omega⟩

theorem gdn_step_eof (data : List Byte) (ic pos cnt pafp : Nat) (L : List String)
    (h : pos ≥ data.length) :
    gdnFrom data ic pos cnt pafp L = .ok ("", ic, some .eofName) := by
  obtain ⟨g, hg, _⟩ := gdnFrom_succ data
  rw [gdnFrom, hg]
  simp only [gdnFuel, if_pos h]

theorem gdn_step_zero (data : List Byte) (ic pos pafp : Nat) (L : List String)
    (hpos : pos < data.length) (hz : data.get ⟨pos, hpos⟩ = (0 : Byte)) :
    gdnFrom data ic pos 0 pafp L = .ok (String.intercalate "." L, pos + 1, none) := by
  obtain ⟨g, hg, _⟩ := gdnFrom_succ data
  rw [gdnFrom, hg]
  simp only [gdnFuel, if_neg (show ¬pos ≥ data.length by omega)]
  rw [idx_eq data pos hpos]
  simp only [if_pos hz]
  simp

theorem gdn_step_labelExceeds (data : List Byte) (ic pos cnt pafp : Nat)
    (L : List String) (hpos : pos < data.length)
    (hz : data.get ⟨pos, hpos⟩ ≠ (0 : Byte))
    (hlab : (data.get ⟨pos, hpos⟩).val &&& 0xC0 = 0x00)
    (hfit : pos + 1 + (data.get ⟨pos, hpos⟩).val > data.length) :
    gdnFrom data ic pos cnt pafp L = .ok ("", ic, some .labelExceeds) := by
  obtain ⟨g, hg, _⟩ := gdnFrom_succ data
  rw [gdnFrom, hg]
  simp only [gdnFuel, if_neg (show ¬pos ≥ data.length by omega)]
  rw [idx_eq data pos hpos]
  simp only [if_neg hz, if_pos hlab, if_pos hfit]

theorem gdn_step_invalid (data : List Byte) (ic pos cnt pafp : Nat)
    (L : List String) (hpos : pos < data.length)
    (hz : data.get ⟨pos, hpos⟩ ≠ (0 : Byte))
    (hlab : ¬(data.get ⟨pos, hpos⟩).val &&& 0xC0 = 0x00)
    (hptr : ¬(data.get ⟨pos, hpos⟩).val &&& 0xC0 = 0xC0) :
    gdnFrom data ic pos cnt pafp L = .ok ("", ic, some .invalidLabelType) := by
  obtain ⟨g, hg, _⟩ := gdnFrom_succ data
  rw [gdnFrom, hg]
  simp only [gdnFuel, if_neg (show ¬pos ≥ data.length by omega)]
  rw [idx_eq data pos hpos]
  simp only [if_neg hz, if_neg hlab, if_neg hptr]

theorem gdn_step_label (data : List Byte) (ic pos cnt pafp : Nat) (L : List String)
    (hpos : pos < data.length) (hz : data.get ⟨pos, hpos⟩ ≠ (0 : Byte))
    (hlab : (data.get ⟨pos, hpos⟩).val &&& 0xC0 = 0x00)
    (hfit : pos + 1 + (data.get ⟨pos, hpos⟩).val ≤ data.length) (hcnt : cnt ≤ 10) :
    gdnFrom data ic pos cnt pafp L =
      gdnFrom data ic (pos + 1 + (data.get ⟨pos, hpos⟩).val) cnt pafp
        (L ++ [bytesToString ((data.drop (pos + 1)).take
          (data.get ⟨pos, hpos⟩).val)]) := by
  obtain ⟨g, hg, hgbig⟩ := gdnFrom_succ data
  have hP : (11 - cnt) * (data.length + 1) ≤ 11 * (data.length + 1) :=
    Nat.mul_le_mul_right _ (by omega)
  obtain ⟨v, hv⟩ := gdnFuel_total data ic g (pos + 1 + (data.get ⟨pos, hpos⟩).val)
    cnt pafp (L ++ [bytesToString ((data.drop (pos + 1)).take
      (data.get ⟨pos, hpos⟩).val)]) hcnt (by omega) (by omega)
  have hrhs := gdnFuel_mono data ic g (11 * (data.length + 1)) _ _ _ _ _ hv (by omega)
  rw [gdnFrom, gdnFrom, hrhs, hg]
  simp only [gdnFuel, if_neg (show ¬pos ≥ data.length by omega)]
  rw [idx_eq data pos hpos]
  simp only [if_neg hz, if_pos hlab, if_neg (show ¬(pos + 1 +
    (data.get ⟨pos, hpos⟩).val > data.length) by omega)]
  rw [goSlice_eq data (pos + 1) (pos + 1 + (data.get ⟨pos, hpos⟩).val)
    (by omega) (by omega), Nat.add_sub_cancel_left]
  simp only
  exact hv

theorem gdn_ptr_not_zero {b : Byte} (hptr : b.val &&& 0xC0 = 0xC0) :
    b ≠ (0 : Byte) := by
  intro h
  subst h
  simp at hptr

theorem gdn_ptr_not_label {b : Byte} (hptr : b.val &&& 0xC0 = 0xC0) :
    ¬b.val &&& 0xC0 = 0x00 := by
  rw [hptr]
  omega

theorem gdn_step_ptr_short (data : List Byte) (ic pos : Nat) (L : List String)
    (hpos : pos < data.length)
    (hptr : (data.get ⟨pos, hpos⟩).val &&& 0xC0 = 0xC0)
    (hsb : pos + 1 ≥ data.length) :
    gdnFrom data ic pos 0 0 L = .ok ("", ic, some .incompletePtr) := by
  obtain ⟨g, hg, _⟩ := gdnFrom_succ data
  rw [gdnFrom, hg]
  simp only [gdnFuel, if_neg (show ¬pos ≥ data.length by omega)]
  rw [idx_eq data pos hpos]
  simp only [if_neg (gdn_ptr_not_zero hptr), if_neg (gdn_ptr_not_label hptr),
    if_pos hptr, if_neg (show ¬(0 + 1 > 10) by omega), if_pos hsb]

theorem gdn_step_ptr_oor (data : List Byte) (ic pos : Nat) (L : List String)
    (hpos : pos < data.length)
    (hptr : (data.get ⟨pos, hpos⟩).val &&& 0xC0 = 0xC0)
    (hpos1 : pos + 1 < data.length)
    (hdest : (((data.get ⟨pos, hpos⟩).val &&& 0x3F) <<< 8) |||
      (data.get ⟨pos + 1, hpos1⟩).val ≥ data.length) :
    gdnFrom data ic pos 0 0 L = .ok ("", ic, some .invalidPtrDest) := by
  obtain ⟨g, hg, _⟩ := gdnFrom_succ data
  rw [gdnFrom, hg]
  simp only [gdnFuel, if_neg (show ¬pos ≥ data.length by omega)]
  rw [idx_eq data pos hpos]
  simp only [if_neg (gdn_ptr_not_zero hptr), if_neg (gdn_ptr_not_label hptr),
    if_pos hptr, if_neg (show ¬(0 + 1 > 10) by omega),
    if_neg (show ¬pos + 1 ≥ data.length by omega)]
  rw [idx_eq data (pos + 1) hpos1]
  simp only [if_pos hdest]

theorem gdn_step_ptr_jump (data : List Byte) (ic pos : Nat) (L : List String)
    (hpos : pos < data.length)
    (hptr : (data.get ⟨pos, hpos⟩).val &&& 0xC0 = 0xC0)
    (hpos1 : pos + 1 < data.length)
    (hdest : (((data.get ⟨pos, hpos⟩).val &&& 0x3F) <<< 8) |||
      (data.get ⟨pos + 1, hpos1⟩).val < data.length) :
    gdnFrom data ic pos 0 0 L =
      gdnFrom data ic ((((data.get ⟨pos, hpos⟩).val &&& 0x3F) <<< 8) |||
        (data.get ⟨pos + 1, hpos1⟩).val) 1 (pos + 2) L := by
  obtain ⟨g, hg, hgbig⟩ := gdnFrom_succ data
  obtain ⟨v, hv⟩ := gdnFuel_total data ic g
    ((((data.get ⟨pos, hpos⟩).val &&& 0x3F) <<< 8) |||
      (data.get ⟨pos + 1, hpos1⟩).val) 1 (pos + 2) L (by omega) (by omega)
    (by omega)
  have hrhs := gdnFuel_mono data ic g (11 * (data.length + 1)) _ _ _ _ _ hv
    (by omega)
  rw [gdnFrom, gdnFrom, hrhs, hg]
  simp only [gdnFuel, if_neg (show ¬pos ≥ data.length by omega)]
  rw [idx_eq data pos hpos]
  simp only [if_neg (gdn_ptr_not_zero hptr), if_neg (gdn_ptr_not_label hptr),
    if_pos hptr, if_neg (show ¬(0 + 1 > 10) by omega),
    if_neg (show ¬pos + 1 ≥ data.length by omega)]
  rw [idx_eq data (pos + 1) hpos1]
  simp only [if_neg (show ¬((((data.get ⟨pos, hpos⟩).val &&& 0x3F) <<< 8) |||
    (data.get ⟨pos + 1, hpos1⟩).val ≥ data.length) by omega)]
  exact hv

theorem gdn_selfptr_loop (data : List Byte) (ic pos : Nat)
    (hpos : pos < data.length) (hpos1 : pos + 1 < data.length)
    (hptr : (data.get ⟨pos, hpos⟩).val &&& 0xC0 = 0xC0)
    (hdest : (((data.get ⟨pos, hpos⟩).val &&& 0x3F) <<< 8) |||
      (data.get ⟨pos + 1, hpos1⟩).val = pos) :
    ∀ f cnt pafp L, 1 ≤ cnt → cnt ≤ 10 → 1 ≤ pafp → 11 - cnt ≤ f →
      gdnFuel data ic f pos cnt pafp L =
        .ok ("Too many compression pointers", pafp, some .tooManyPtrs) := by
  intro f
  induction f with
  | zero => intro cnt pafp L _ h2 _ h4; omega
  | succ g ih =>
    intro cnt pafp L h1 h2 h3 h4
    simp only [gdnFuel, if_neg (show ¬pos ≥ data.length by omega)]
    rw [idx_eq data pos hpos]
    simp only [if_neg (gdn_ptr_not_zero hptr), if_neg (gdn_ptr_not_label hptr),
      if_pos hptr, if_neg (show ¬cnt = 0 by omega)]
    by_cases hcap : cnt + 1 > 10
    · simp only [if_pos hcap, if_pos (show pafp ≠ 0 by omega)]
    · simp only [if_neg hcap, if_neg (show ¬pos + 1 ≥ data.length by omega)]
      rw [idx_eq data (pos + 1) hpos1]
      simp only [hdest, if_neg (show ¬pos ≥ data.length by omega)]
      exact ih (cnt + 1) pafp L (by omega) (by omega) h3 (by omega)

theorem plainScanF_none_of_ge (data : List Byte) :
    ∀ g pos, pos ≥ data.length → plainScanF data g pos = none := by
  intro g pos h
  cases g <;> simp [plainScanF, show ¬pos < data.length by omega]

/-- Correspondence between the loop started with no pointer followed and
the plain pre-pointer walk: reaching the terminator ends the loop right
after it, reaching the first pointer relocates the loop state to the
pointer site with the labels collected so far, and a failing walk makes
the loop fail with one of the pre-pointer errors. -/
theorem gdn_plain_corr (data : List Byte) (ic : Nat) :
    ∀ fuel pos L, data.length < fuel + pos →
      (∀ e, plainScanF data fuel pos = some (.term e) →
        gdnFrom data ic pos 0 0 L =
          .ok (String.intercalate "." (L ++ plainAccF data fuel pos), e, none)) ∧
      (∀ p, plainScanF data fuel pos = some (.ptrAt p) →
        gdnFrom data ic pos 0 0 L =
          gdnFrom data ic p 0 0 (L ++ plainAccF data fuel pos)) ∧
      (plainScanF data fuel pos = none →
        ∃ err, gdnFrom data ic pos 0 0 L = .ok ("", ic, some err) ∧
          (err = .eofName ∨ err = .labelExceeds ∨ err = .invalidLabelType)) := by
  intro fuel
  induction fuel with
  | zero =>
    intro pos L hinv
    refine ⟨?_, ?_, ?_⟩
    · intro e he; simp [plainScanF] at he
    · intro p hp; simp [plainScanF] at hp
    · intro _
      exact ⟨.eofName, gdn_step_eof data ic pos 0 0 L (by omega), Or.inl rfl⟩
  | succ g ih =>
    intro pos L hinv
    by_cases hpos : pos < data.length
    · by_cases hz : data.get ⟨pos, hpos⟩ = (0 : Byte)
      · have hscan : plainScanF data (g + 1) pos = some (.term (pos + 1)) := by
          rw [plainScanF, dif_pos hpos]
          simp only [if_pos hz]
        have hacc : plainAccF data (g + 1) pos = [] := by
          rw [plainAccF, dif_pos hpos]
          simp only [if_pos hz]
        refine ⟨?_, ?_, ?_⟩
        · intro e he
          rw [hscan] at he
          simp only [Option.some.injEq, ScanHit.term.injEq] at he
          subst he
          rw [gdn_step_zero data ic pos 0 L hpos hz, hacc, List.append_nil]
        · intro p hp; rw [hscan] at hp; simp at hp
        · intro hn; rw [hscan] at hn; simp at hn
      · by_cases hlab : (data.get ⟨pos, hpos⟩).val &&& 0xC0 = 0x00
        · by_cases hfit : pos + 1 + (data.get ⟨pos, hpos⟩).val ≤ data.length
          · have hscan : plainScanF data (g + 1) pos =
                plainScanF data g (pos + 1 + (data.get ⟨pos, hpos⟩).val) := by
              rw [plainScanF, dif_pos hpos]
              simp only [if_neg hz, if_pos hlab]
            have hacc : plainAccF data (g + 1) pos =
                bytesToString ((data.drop (pos + 1)).take
                  (data.get ⟨pos, hpos⟩).val) ::
                plainAccF data g (pos + 1 + (data.get ⟨pos, hpos⟩).val) := by
              rw [plainAccF, dif_pos hpos]
              simp only [if_neg hz, if_pos hlab]
            have hstep := gdn_step_label data ic pos 0 0 L hpos hz hlab hfit
              (by omega)
            have IH := ih (pos + 1 + (data.get ⟨pos, hpos⟩).val)
              (L ++ [bytesToString ((data.drop (pos + 1)).take
                (data.get ⟨pos, hpos⟩).val)]) (by omega)
            refine ⟨?_, ?_, ?_⟩
            · intro e he
              rw [hscan] at he
              rw [hstep, IH.1 e he, hacc]
              simp
            · intro p hp
              rw [hscan] at hp
              rw [hstep, IH.2.1 p hp, hacc]
              simp
            · intro hn
              rw [hscan] at hn
              obtain ⟨err, herr, hcase⟩ := IH.2.2 hn
              exact ⟨err, by rw [hstep, herr], hcase⟩
          · have hscan : plainScanF data (g + 1) pos = none := by
              rw [show plainScanF data (g + 1) pos =
                  plainScanF data g (pos + 1 + (data.get ⟨pos, hpos⟩).val) by
                rw [plainScanF, dif_pos hpos]
                simp only [if_neg hz, if_pos hlab]]
              exact plainScanF_none_of_ge data g _ (by omega)
            refine ⟨?_, ?_, ?_⟩
            · intro e he; rw [hscan] at he; simp at he
            · intro p hp; rw [hscan] at hp; simp at hp
            · intro _
              exact ⟨.labelExceeds, gdn_step_labelExceeds data ic pos 0 0 L hpos
                hz hlab (by omega), Or.inr (Or.inl rfl)⟩
        · by_cases hptr : (data.get ⟨pos, hpos⟩).val &&& 0xC0 = 0xC0
          · have hscan : plainScanF data (g + 1) pos = some (.ptrAt pos) := by
              rw [plainScanF, dif_pos hpos]
              simp only [if_neg hz, if_neg hlab, if_pos hptr]
            have hacc : plainAccF data (g + 1) pos = [] := by
              rw [plainAccF, dif_pos hpos]
              simp only [if_neg hz, if_neg hlab]
            refine ⟨?_, ?_, ?_⟩
            · intro e he; rw [hscan] at he; simp at he
            · intro p hp
              rw [hscan] at hp
              simp only [Option.some.injEq, ScanHit.ptrAt.injEq] at hp
              subst hp
              rw [hacc, List.append_nil]
            · intro hn; rw [hscan] at hn; simp at hn
          · have hscan : plainScanF data (g + 1) pos = none := by
              rw [plainScanF, dif_pos hpos]
              simp only [if_neg hz, if_neg hlab, if_neg hptr]
            refine ⟨?_, ?_, ?_⟩
            · intro e he; rw [hscan] at he; simp at he
            · intro p hp; rw [hscan] at hp; simp at hp
            · intro _
              exact ⟨.invalidLabelType, gdn_step_invalid data ic pos 0 0 L hpos
                hz hlab hptr, Or.inr (Or.inr rfl)⟩
    · have hscan : plainScanF data (g + 1) pos = none :=
        plainScanF_none_of_ge data (g + 1) pos (by omega)
      refine ⟨?_, ?_, ?_⟩
      · intro e he; rw [hscan] at he; simp at he
      · intro p hp; rw [hscan] at hp; simp at hp
      · intro _
        exact ⟨.eofName, gdn_step_eof data ic pos 0 0 L (by omega), Or.inl rfl⟩

/-! ### Totality: no decoder run panics or exhausts its budget -/

theorem getDomainName_total (data : List Byte) (c : Nat) :
    ∃ v, getDomainName data c = .ok v := by
  rw [getDomainName, gdnFrom]
  exact gdnFuel_total data c _ c 0 0 [] (by omega) (by omega) (by omega)

theorem parseRR_total (data : List Byte) (c : Nat) :
    ∃ v, parseRR data c = .ok v := by
  obtain ⟨⟨nm, c1, e⟩, hg⟩ := getDomainName_total data c
  rw [parseRR, hg]
  cases e with
  | some err => exact ⟨_, rfl⟩
  | none =>
    simp only
    by_cases h10 : c1 + 10 > data.length
    · simp only [if_pos h10]; exact ⟨_, rfl⟩
    · simp only [if_neg h10]
      obtain ⟨v1, h1⟩ := beUint16_exists data c1 (by omega)
      obtain ⟨v2, h2⟩ := beUint16_exists data (c1 + 2) (by omega)
      obtain ⟨v3, h3⟩ := beUint32_exists data (c1 + 4) (by omega)
      obtain ⟨v4, h4⟩ := beUint16_exists data (c1 + 8) (by omega)
      rw [h1, h2, h3, h4]
      simp only
      by_cases hrd : c1 + 10 + v4 > data.length
      · simp only [if_pos hrd]; exact ⟨_, rfl⟩
      · simp only [if_neg hrd]
        rw [goSlice_eq data (c1 + 10) (c1 + 10 + v4) (by omega) (by omega)]
        exact ⟨_, rfl⟩

theorem parseQLoop_total (data : List Byte) :
    ∀ n cursor acc, ∃ v, parseQLoop data n cursor acc = .ok v := by
  intro n
  induction n with
  | zero => intro cursor acc; exact ⟨_, rfl⟩
  | succ k ih =>
    intro cursor acc
    rw [parseQLoop]
    by_cases hc : cursor ≥ data.length
    · simp only [if_pos hc]; exact ⟨_, rfl⟩
    · simp only [if_neg hc]
      obtain ⟨⟨nm, c1, e⟩, hg⟩ := getDomainName_total data cursor
      rw [hg]
      cases e with
      | some err => exact ⟨_, rfl⟩
      | none =>
        simp only
        by_cases h4 : c1 + 4 > data.length
        · simp only [if_pos h4]; exact ⟨_, rfl⟩
        · simp only [if_neg h4]
          obtain ⟨v1, h1⟩ := beUint16_exists data c1 (by omega)
          obtain ⟨v2, h2⟩ := beUint16_exists data (c1 + 2) (by omega)
          rw [h1, h2]
          exact ih _ _

theorem parseRRLoop_total (data : List Byte) (eofErr : DnsErr) :
    ∀ n cursor acc, ∃ v, parseRRLoop data eofErr n cursor acc = .ok v := by
  intro n
  induction n with
  | zero => intro cursor acc; exact ⟨_, rfl⟩
  | succ k ih =>
    intro cursor acc
    rw [parseRRLoop]
    by_cases hc : cursor ≥ data.length
    · simp only [if_pos hc]; exact ⟨_, rfl⟩
    · simp only [if_neg hc]
      obtain ⟨⟨rr, c1, e⟩, hg⟩ := parseRR_total data cursor
      rw [hg]
      cases e with
      | some err => exact ⟨_, rfl⟩
      | none => exact ih _ _

theorem parseDNSMsg_total (data : List Byte) :
    ∃ v, parseDNSMsg data = .ok v := by
  rw [parseDNSMsg]
  by_cases h12 : data.length < 12
  · simp only [if_pos h12]; exact ⟨_, rfl⟩
  · simp only [if_neg h12]
    obtain ⟨w0, e0⟩ := beUint16_exists data 0 (by omega)
    obtain ⟨w2, e2⟩ := beUint16_exists data 2 (by omega)
    obtain ⟨w4, e4⟩ := beUint16_exists data 4 (by omega)
    obtain ⟨w6, e6⟩ := beUint16_exists data 6 (by omega)
    obtain ⟨w8, e8⟩ := beUint16_exists data 8 (by omega)
    obtain ⟨w10, e10⟩ := beUint16_exists data 10 (by omega)
    rw [e0, e2, e4, e6, e8, e10]
    simp only
    obtain ⟨⟨qs, c1, eq1⟩, hq⟩ := parseQLoop_total data w4 12 []
    rw [hq]
    cases eq1 with
    | some err => exact ⟨_, rfl⟩
    | none =>
      simp only
      obtain ⟨⟨ans, c2, ea⟩, ha⟩ := parseRRLoop_total data .eofAnswers w6 c1 []
      rw [ha]
      cases ea with
      | some err => exact ⟨_, rfl⟩
      | none =>
        simp only
        obtain ⟨⟨nss, c3, en⟩, hn⟩ := parseRRLoop_total data .eofAuthority w8 c2 []
        rw [hn]
        cases en with
        | some err => exact ⟨_, rfl⟩
        | none =>
          simp only
          obtain ⟨⟨ext, c4, ex⟩, hx⟩ := parseRRLoop_total data .eofAdditional w10 c3 []
          rw [hx]
          cases ex with
          | some err => exact ⟨_, rfl⟩
          | none => exact ⟨_, rfl⟩

theorem plainScanF_site_ge (data : List Byte) :
    ∀ fuel pos p, plainScanF data fuel pos = some (.ptrAt p) → pos ≤ p := by
  intro fuel
  induction fuel with
  | zero => intro pos p h; simp [plainScanF] at h
  | succ g ih =>
    intro pos p h
    by_cases hpos : pos < data.length
    · rw [plainScanF, dif_pos hpos] at h
      by_cases hz : data.get ⟨pos, hpos⟩ = (0 : Byte)
      · simp only [if_pos hz] at h; simp at h
      · simp only [if_neg hz] at h
        by_cases hlab : (data.get ⟨pos, hpos⟩).val &&& 0xC0 = 0x00
        · simp only [if_pos hlab] at h
          have := ih _ _ h
          omega
        · simp only [if_neg hlab] at h
          by_cases hptr : (data.get ⟨pos, hpos⟩).val &&& 0xC0 = 0xC0
          · simp only [if_pos hptr, Option.some.injEq, ScanHit.ptrAt.injEq] at h
            omega
          · simp only [if_neg hptr] at h; simp at h
    · rw [plainScanF_none_of_ge data (g + 1) pos (by omega)] at h
      simp at h

/-! ### Error classification: the header-too-short error only arises from
the 12-byte header check -/

theorem gdnFuel_ne_hts (data : List Byte) (ic : Nat) :
    ∀ f pos cnt pafp L nm off e,
      gdnFuel data ic f pos cnt pafp L = .ok (nm, off, some e) →
      e ≠ .headerTooShort := by
  intro f
  induction f with
  | zero => intro pos cnt pafp L nm off e h; simp [gdnFuel] at h
  | succ g ih =>
    intro pos cnt pafp L nm off e h
    by_cases h1 : pos ≥ data.length
    · simp only [gdnFuel, if_pos h1, Res.ok.injEq, Prod.mk.injEq] at h
      obtain ⟨-, -, h3⟩ := h
      obtain ⟨rfl⟩ : DnsErr.eofName = e := by simpa using h3
      simp
    · have hpos : pos < data.length := by omega
      simp only [gdnFuel, if_neg h1] at h
      rw [idx_eq data pos hpos] at h
      simp only at h
      by_cases hz : data.get ⟨pos, hpos⟩ = (0 : Byte)
      · simp only [if_pos hz] at h
        rcases Nat.lt_or_ge 0 cnt with hc | hc
        · simp only [if_pos hc, Res.ok.injEq, Prod.mk.injEq] at h
          simp at h
        · simp only [if_neg (show ¬cnt > 0 by omega), Res.ok.injEq,
            Prod.mk.injEq] at h
          simp at h
      · simp only [if_neg hz] at h
        by_cases hlab : (data.get ⟨pos, hpos⟩).val &&& 0xC0 = 0x00
        · simp only [if_pos hlab] at h
          by_cases hfit : pos + 1 + (data.get ⟨pos, hpos⟩).val > data.length
          · simp only [if_pos hfit, Res.ok.injEq, Prod.mk.injEq] at h
            obtain ⟨-, -, h3⟩ := h
            obtain ⟨rfl⟩ : DnsErr.labelExceeds = e := by simpa using h3
            simp
          · simp only [if_neg hfit] at h
            rw [goSlice_eq data (pos + 1) (pos + 1 + (data.get ⟨pos, hpos⟩).val)
              (by omega) (by omega)] at h
            simp only at h
            exact ih _ _ _ _ _ _ _ h
        · simp only [if_neg hlab] at h
          by_cases hptr : (data.get ⟨pos, hpos⟩).val &&& 0xC0 = 0xC0
          · simp only [if_pos hptr] at h
            by_cases hcap : cnt + 1 > 10
            · simp only [if_pos hcap, Res.ok.injEq, Prod.mk.injEq] at h
              obtain ⟨-, -, h3⟩ := h
              obtain ⟨rfl⟩ : DnsErr.tooManyPtrs = e := by simpa using h3
              simp
            · simp only [if_neg hcap] at h
              by_cases hsb : pos + 1 ≥ data.length
              · simp only [if_pos hsb, Res.ok.injEq, Prod.mk.injEq] at h
                obtain ⟨-, -, h3⟩ := h
                obtain ⟨rfl⟩ : DnsErr.incompletePtr = e := by simpa using h3
                simp
              · simp only [if_neg hsb] at h
                have hpos1 : pos + 1 < data.length := by omega
                rw [idx_eq data (pos + 1) hpos1] at h
                simp only at h
                by_cases hdest :
                    (((data.get ⟨pos, hpos⟩).val &&& 0x3F) <<< 8) |||
                      (data.get ⟨pos + 1, hpos1⟩).val ≥ data.length
                · simp only [if_pos hdest, Res.ok.injEq, Prod.mk.injEq] at h
                  obtain ⟨-, -, h3⟩ := h
                  obtain ⟨rfl⟩ : DnsErr.invalidPtrDest = e := by simpa using h3
                  simp
                · simp only [if_neg hdest] at h
                  exact ih _ _ _ _ _ _ _ h
          · simp only [if_neg hptr, Res.ok.injEq, Prod.mk.injEq] at h
            obtain ⟨-, -, h3⟩ := h
            obtain ⟨rfl⟩ : DnsErr.invalidLabelType = e := by simpa using h3
            simp

theorem getDomainName_ne_hts {data : List Byte} {c : Nat} {nm : String}
    {off : Nat} {e : DnsErr}
    (h : getDomainName data c = .ok (nm, off, some e)) : e ≠ .headerTooShort :=
  gdnFuel_ne_hts data c _ _ _ _ _ _ _ _ h

theorem parseRR_ne_hts {data : List Byte} {c : Nat} {rr : dnsRR} {off : Nat}
    {e : DnsErr} (h : parseRR data c = .ok (rr, off, some e)) :
    e ≠ .headerTooShort := by
  rw [parseRR] at h
  obtain ⟨⟨nm, c1, e1⟩, hg⟩ := getDomainName_total data c
  rw [hg] at h
  cases e1 with
  | some err =>
    simp only [Res.ok.injEq, Prod.mk.injEq] at h
    obtain ⟨-, -, h3⟩ := h
    obtain ⟨rfl⟩ : err = e := by simpa using h3
    exact getDomainName_ne_hts hg
  | none =>
    simp only at h
    by_cases h10 : c1 + 10 > data.length
    · simp only [if_pos h10, Res.ok.injEq, Prod.mk.injEq] at h
      obtain ⟨-, -, h3⟩ := h
      obtain ⟨rfl⟩ : DnsErr.insuffRRHeader = e := by simpa using h3
      simp
    · simp only [if_neg h10] at h
      obtain ⟨v1, h1⟩ := beUint16_exists data c1 (by omega)
      obtain ⟨v2, h2⟩ := beUint16_exists data (c1 + 2) (by omega)
      obtain ⟨v3, h3'⟩ := beUint32_exists data (c1 + 4) (by omega)
      obtain ⟨v4, h4⟩ := beUint16_exists data (c1 + 8) (by omega)
      rw [h1, h2, h3', h4] at h
      simp only at h
      by_cases hrd : c1 + 10 + v4 > data.length
      · simp only [if_pos hrd, Res.ok.injEq, Prod.mk.injEq] at h
        obtain ⟨-, -, h3⟩ := h
        obtain ⟨rfl⟩ : DnsErr.rdataExceeds = e := by simpa using h3
        simp
      · simp only [if_neg hrd] at h
        rw [goSlice_eq data (c1 + 10) (c1 + 10 + v4) (by omega) (by omega)] at h
        simp at h

theorem parseQLoop_ne_hts (data : List Byte) :
    ∀ n cursor acc qs off e,
      parseQLoop data n cursor acc = .ok (qs, off, some e) →
      e ≠ .headerTooShort := by
  intro n
  induction n with
  | zero => intro cursor acc qs off e h; simp [parseQLoop] at h
  | succ k ih =>
    intro cursor acc qs off e h
    rw [parseQLoop] at h
    by_cases hc : cursor ≥ data.length
    · simp only [if_pos hc, Res.ok.injEq, Prod.mk.injEq] at h
      obtain ⟨-, -, h3⟩ := h
      obtain ⟨rfl⟩ : DnsErr.eofQuestions = e := by simpa using h3
      simp
    · simp only [if_neg hc] at h
      obtain ⟨⟨nm, c1, e1⟩, hg⟩ := getDomainName_total data cursor
      rw [hg] at h
      cases e1 with
      | some err =>
        simp only [Res.ok.injEq, Prod.mk.injEq] at h
        obtain ⟨-, -, h3⟩ := h
        obtain ⟨rfl⟩ : err = e := by simpa using h3
        exact getDomainName_ne_hts hg
      | none =>
        simp only at h
        by_cases h4 : c1 + 4 > data.length
        · simp only [if_pos h4, Res.ok.injEq, Prod.mk.injEq] at h
          obtain ⟨-, -, h3⟩ := h
          obtain ⟨rfl⟩ : DnsErr.insuffQFields = e := by simpa using h3
          simp
        · simp only [if_neg h4] at h
          obtain ⟨v1, h1⟩ := beUint16_exists data c1 (by omega)
          obtain ⟨v2, h2⟩ := beUint16_exists data (c1 + 2) (by omega)
          rw [h1, h2] at h
          simp only at h
          exact ih _ _ _ _ _ h

theorem parseRRLoop_ne_hts (data : List Byte) (eofErr : DnsErr)
    (heof : eofErr ≠ .headerTooShort) :
    ∀ n cursor acc rs off e,
      parseRRLoop data eofErr n cursor acc = .ok (rs, off, some e) →
      e ≠ .headerTooShort := by
  intro n
  induction n with
  | zero => intro cursor acc rs off e h; simp [parseRRLoop] at h
  | succ k ih =>
    intro cursor acc rs off e h
    rw [parseRRLoop] at h
    by_cases hc : cursor ≥ data.length
    · simp only [if_pos hc, Res.ok.injEq, Prod.mk.injEq] at h
      obtain ⟨-, -, h3⟩ := h
      obtain ⟨rfl⟩ : eofErr = e := by simpa using h3
      exact heof
    · simp only [if_neg hc] at h
      obtain ⟨⟨rr, c1, e1⟩, hg⟩ := parseRR_total data cursor
      rw [hg] at h
      cases e1 with
      | some err =>
        simp only [Res.ok.injEq, Prod.mk.injEq] at h
        obtain ⟨-, -, h3⟩ := h
        obtain ⟨rfl⟩ : err = e := by simpa using h3
        exact parseRR_ne_hts hg
      | none =>
        simp only at h
        exact ih _ _ _ _ _ h

/-! ### Section lengths and header decoding facts of parseDNSMsg -/

theorem parseQLoop_len (data : List Byte) :
    ∀ n cursor acc qs off, parseQLoop data n cursor acc = .ok (qs, off, none) →
      qs.length = acc.length + n := by
  intro n
  induction n with
  | zero =>
    intro cursor acc qs off h
    simp only [parseQLoop, Res.ok.injEq, Prod.mk.injEq] at h
    obtain ⟨rfl, -, -⟩ := h
    simp
  | succ k ih =>
    intro cursor acc qs off h
    rw [parseQLoop] at h
    by_cases hc : cursor ≥ data.length
    · simp only [if_pos hc, Res.ok.injEq, Prod.mk.injEq] at h
      simp at h
    · simp only [if_neg hc] at h
      obtain ⟨⟨nm, c1, e1⟩, hg⟩ := getDomainName_total data cursor
      rw [hg] at h
      cases e1 with
      | some err => simp only [Res.ok.injEq, Prod.mk.injEq] at h; simp at h
      | none =>
        simp only at h
        by_cases h4 : c1 + 4 > data.length
        · simp only [if_pos h4, Res.ok.injEq, Prod.mk.injEq] at h; simp at h
        · simp only [if_neg h4] at h
          obtain ⟨v1, h1⟩ := beUint16_exists data c1 (by omega)
          obtain ⟨v2, h2⟩ := beUint16_exists data (c1 + 2) (by omega)
          rw [h1, h2] at h
          simp only at h
          have := ih _ _ _ _ h
          simp only [List.length_append, List.length_singleton] at this
          omega

theorem parseRRLoop_len (data : List Byte) (eofErr : DnsErr) :
    ∀ n cursor acc rs off, parseRRLoop data eofErr n cursor acc = .ok (rs, off, none) →
      rs.length = acc.length + n := by
  intro n
  induction n with
  | zero =>
    intro cursor acc rs off h
    simp only [parseRRLoop, Res.ok.injEq, Prod.mk.injEq] at h
    obtain ⟨rfl, -, -⟩ := h
    simp
  | succ k ih =>
    intro cursor acc rs off h
    rw [parseRRLoop] at h
    by_cases hc : cursor ≥ data.length
    · simp only [if_pos hc, Res.ok.injEq, Prod.mk.injEq] at h
      simp at h
    · simp only [if_neg hc] at h
      obtain ⟨⟨rr, c1, e1⟩, hg⟩ := parseRR_total data cursor
      rw [hg] at h
      cases e1 with
      | some err => simp only [Res.ok.injEq, Prod.mk.injEq] at h; simp at h
      | none =>
        simp only at h
        have := ih _ _ _ _ h
        simp only [List.length_append, List.length_singleton] at this
        omega

theorem parseDNSMsg_header (data : List Byte) (h12 : ¬data.length < 12)
    (m : dnsMsg) (e : Option DnsErr) (h : parseDNSMsg data = .ok (m, e)) :
    ∃ i fl qn an authn addn,
      beUint16 data 0 = some i ∧ beUint16 data 2 = some fl ∧
      beUint16 data 4 = some qn ∧ beUint16 data 6 = some an ∧
      beUint16 data 8 = some authn ∧ beUint16 data 10 = some addn ∧
      m.id = i ∧ m.response = true ∧
      m.opcode = (fl >>> 11) &&& 0x000F ∧
      m.authoritative = Itob ((fl &&& 0x0400) >>> 10) ∧
      m.truncated = Itob ((fl &&& 0x0200) >>> 9) ∧
      m.recursion_desired = Itob ((fl &&& 0x0100) >>> 8) ∧
      m.recursion_available = Itob ((fl &&& 0x00F0) >>> 7) ∧
      m.rcode = fl &&& 0x000F ∧
      m.question_num = qn ∧ m.answer_num = an ∧
      m.authority_num = authn ∧ m.additional_num = addn := by
  rw [parseDNSMsg, if_neg h12] at h
  obtain ⟨w0, e0⟩ := beUint16_exists data 0 (by omega)
  obtain ⟨w2, e2⟩ := beUint16_exists data 2 (by omega)
  obtain ⟨w4, e4⟩ := beUint16_exists data 4 (by omega)
  obtain ⟨w6, e6⟩ := beUint16_exists data 6 (by omega)
  obtain ⟨w8, e8⟩ := beUint16_exists data 8 (by omega)
  obtain ⟨w10, e10⟩ := beUint16_exists data 10 (by omega)
  rw [e0, e2, e4, e6, e8, e10] at h
  simp only at h
  refine ⟨w0, w2, w4, w6, w8, w10, e0, e2, e4, e6, e8, e10, ?_⟩
  obtain ⟨⟨qs, c1, eq1⟩, hq⟩ := parseQLoop_total data w4 12 []
  rw [hq] at h
  cases eq1 with
  | some err =>
    simp only [Res.ok.injEq, Prod.mk.injEq] at h
    obtain ⟨h1, -⟩ := h
    subst h1
    exact ⟨rfl, rfl, rfl, rfl, rfl, rfl, rfl, rfl, rfl, rfl, rfl, rfl⟩
  | none =>
    simp only at h
    obtain ⟨⟨ans, c2, ea⟩, ha⟩ := parseRRLoop_total data .eofAnswers w6 c1 []
    rw [ha] at h
    cases ea with
    | some err =>
      simp only [Res.ok.injEq, Prod.mk.injEq] at h
      obtain ⟨h1, -⟩ := h
      subst h1
      exact ⟨rfl, rfl, rfl, rfl, rfl, rfl, rfl, rfl, rfl, rfl, rfl, rfl⟩
    | none =>
      simp only at h
      obtain ⟨⟨nss, c3, en⟩, hn⟩ := parseRRLoop_total data .eofAuthority w8 c2 []
      rw [hn] at h
      cases en with
      | some err =>
        simp only [Res.ok.injEq, Prod.mk.injEq] at h
        obtain ⟨h1, -⟩ := h
        subst h1
        exact ⟨rfl, rfl, rfl, rfl, rfl, rfl, rfl, rfl, rfl, rfl, rfl, rfl⟩
      | none =>
        simp only at h
        obtain ⟨⟨ext, c4, ex⟩, hx⟩ := parseRRLoop_total data .eofAdditional w10 c3 []
        rw [hx] at h
        cases ex with
        | some err =>
          simp only [Res.ok.injEq, Prod.mk.injEq] at h
          obtain ⟨h1, -⟩ := h
          subst h1
          exact ⟨rfl, rfl, rfl, rfl, rfl, rfl, rfl, rfl, rfl, rfl, rfl, rfl⟩
        | none =>
          simp only [Res.ok.injEq, Prod.mk.injEq] at h
          obtain ⟨h1, -⟩ := h
          subst h1
          exact ⟨rfl, rfl, rfl, rfl, rfl, rfl, rfl, rfl, rfl, rfl, rfl, rfl⟩

/-! ### Bit-position readings of the flag extractions -/

theorem itob_and_shift_testBit (fl M k : Nat) (h1 : M < 2 ^ (k + 1))
    (h2 : M.testBit k = true) :
    Itob ((fl &&& M) >>> k) = fl.testBit k := by
  have hle : fl &&& M ≤ M := Nat.and_le_right
  have hbit : (fl &&& M).testBit k = fl.testBit k := by
    rw [Nat.testBit_and, h2, Bool.and_true]
  have hdiv : (fl &&& M) / 2 ^ k ≤ 1 := by
    have hpos : 0 < 2 ^ k := Nat.pos_pow_of_pos k (by omega)
    have : fl &&& M < 2 * 2 ^ k := by
      have : fl &&& M < 2 ^ (k + 1) := lt_of_le_of_lt hle h1
      rwa [pow_succ, mul_comm (2 ^ k) 2] at this
    have := (Nat.div_lt_iff_lt_mul hpos).mpr (by omega : fl &&& M < 2 * 2 ^ k)
    omega
  rw [Nat.shiftRight_eq_div_pow, ← hbit, Nat.testBit_to_div_mod]
  rcases Nat.le_one_iff_eq_zero_or_eq_one.mp hdiv with h | h <;> rw [h] <;> rfl

theorem and_fifteen (x : Nat) : x &&& 15 = x % 16 := by
  have h := Nat.and_pow_two_sub_one_eq_mod x 4
  norm_num at h
  exact h

/-! ### Count facts: success fills every section to its declared count -/

theorem parseDNSMsg_counts (data : List Byte) (m : dnsMsg)
    (h : parseDNSMsg data = .ok (m, none)) :
    m.question.length = m.question_num ∧ m.answer.length = m.answer_num ∧
    m.ns.length = m.authority_num ∧ m.extra.length = m.additional_num := by
  rw [parseDNSMsg] at h
  by_cases h12 : data.length < 12
  · rw [if_pos h12] at h
    simp only [Res.ok.injEq, Prod.mk.injEq] at h
    simp at h
  · rw [if_neg h12] at h
    obtain ⟨w0, e0⟩ := beUint16_exists data 0 (by omega)
    obtain ⟨w2, e2⟩ := beUint16_exists data 2 (by omega)
    obtain ⟨w4, e4⟩ := beUint16_exists data 4 (by omega)
    obtain ⟨w6, e6⟩ := beUint16_exists data 6 (by omega)
    obtain ⟨w8, e8⟩ := beUint16_exists data 8 (by omega)
    obtain ⟨w10, e10⟩ := beUint16_exists data 10 (by omega)
    rw [e0, e2, e4, e6, e8, e10] at h
    simp only at h
    obtain ⟨⟨qs, c1, eq1⟩, hq⟩ := parseQLoop_total data w4 12 []
    rw [hq] at h
    cases eq1 with
    | some err => simp only [Res.ok.injEq, Prod.mk.injEq] at h; simp at h
    | none =>
      simp only at h
      obtain ⟨⟨ans, c2, ea⟩, ha⟩ := parseRRLoop_total data .eofAnswers w6 c1 []
      rw [ha] at h
      cases ea with
      | some err => simp only [Res.ok.injEq, Prod.mk.injEq] at h; simp at h
      | none =>
        simp only at h
        obtain ⟨⟨nss, c3, en⟩, hn⟩ := parseRRLoop_total data .eofAuthority w8 c2 []
        rw [hn] at h
        cases en with
        | some err => simp only [Res.ok.injEq, Prod.mk.injEq] at h; simp at h
        | none =>
          simp only at h
          obtain ⟨⟨ext, c4, ex⟩, hx⟩ :=
            parseRRLoop_total data .eofAdditional w10 c3 []
          rw [hx] at h
          cases ex with
          | some err => simp only [Res.ok.injEq, Prod.mk.injEq] at h; simp at h
          | none =>
            simp only [Res.ok.injEq, Prod.mk.injEq] at h
            obtain ⟨h1, -⟩ := h
            subst h1
            have l1 := parseQLoop_len data w4 12 [] qs c1 hq
            have l2 := parseRRLoop_len data .eofAnswers w6 c1 [] ans c2 ha
            have l3 := parseRRLoop_len data .eofAuthority w8 c2 [] nss c3 hn
            have l4 := parseRRLoop_len data .eofAdditional w10 c3 [] ext c4 hx
            simp only [List.length_nil] at l1 l2 l3 l4
            exact ⟨by simpa using l1, by simpa using l2, by simpa using l3,
              by simpa using l4⟩

theorem plainScanF_ptr_byte (data : List Byte) :
    ∀ fuel pos p, plainScanF data fuel pos = some (.ptrAt p) →
      ∃ h : p < data.length, (data.get ⟨p, h⟩).val &&& 0xC0 = 0xC0 := by
  intro fuel
  induction fuel with
  | zero => intro pos p h; simp [plainScanF] at h
  | succ g ih =>
    intro pos p h
    by_cases hpos : pos < data.length
    · rw [plainScanF, dif_pos hpos] at h
      by_cases hz : data.get ⟨pos, hpos⟩ = (0 : Byte)
      · simp only [if_pos hz] at h; simp at h
      · simp only [if_neg hz] at h
        by_cases hlab : (data.get ⟨pos, hpos⟩).val &&& 0xC0 = 0x00
        · simp only [if_pos hlab] at h
          exact ih _ _ h
        · simp only [if_neg hlab] at h
          by_cases hptr : (data.get ⟨pos, hpos⟩).val &&& 0xC0 = 0xC0
          · simp only [if_pos hptr, Option.some.injEq, ScanHit.ptrAt.injEq] at h
            subst h
            exact ⟨hpos, hptr⟩
          · simp only [if_neg hptr] at h; simp at h
    · rw [plainScanF_none_of_ge data (g + 1) pos (by omega)] at h
      simp at h

/-- Claim C2: when getDomainName succeeds after following at least one
compression pointer (the plain walk from the start hits a pointer first),
the returned resume-offset is the offset just after the two bytes of that
first pointer, no matter how many further pointers are followed; when no
pointer is followed (the walk hits the terminating zero), the returned
resume-offset is the position just after that zero byte. -/
theorem c2_resume_offset (data : List Byte) (c : Nat) (nm : String) (off : Nat)
    (h : getDomainName data c = .ok (nm, off, none)) :
    (∀ p, plainScan data c = some (.ptrAt p) → off = p + 2) ∧
    (∀ e, plainScan data c = some (.term e) → off = e) ∧
    plainScan data c ≠ none := by
  rw [getDomainName] at h
  have corr := gdn_plain_corr data c (data.length + 1) c [] (by omega)
  refine ⟨?_, ?_, ?_⟩
  · intro p hp
    unfold plainScan at hp
    have hjump := corr.2.1 p hp
    rw [hjump] at h
    obtain ⟨hplt, hptr⟩ := plainScanF_ptr_byte data _ c p hp
    by_cases hp1 : p + 1 < data.length
    · by_cases hdest : (((data.get ⟨p, hplt⟩).val &&& 0x3F) <<< 8) |||
          (data.get ⟨p + 1, hp1⟩).val < data.length
      · rw [gdn_step_ptr_jump data c p _ hplt hptr hp1 hdest] at h
        rw [gdnFrom] at h
        exact (gdn_pafp_inv data c _ _ _ _ _ _ _ _ (by omega) (by omega) h).1 rfl
      · rw [gdn_step_ptr_oor data c p _ hplt hptr hp1 (by omega)] at h
        simp at h
    · rw [gdn_step_ptr_short data c p _ hplt hptr (by omega)] at h
      simp at h
  · intro e he
    unfold plainScan at he
    have hterm := corr.1 e he
    rw [hterm] at h
    simp only [Res.ok.injEq, Prod.mk.injEq] at h
    exact h.2.1.symm
  · intro hn
    unfold plainScan at hn
    obtain ⟨err, herr, -⟩ := corr.2.2 hn
    rw [herr] at h
    simp at h

theorem c2_witness :
    getDomainName nameWithPtr 5 = .ok ("foo", 7, none) ∧ (7 : Nat) = 5 + 2 :=
  ⟨by decide, (c2_resume_offset nameWithPtr 5 "foo" 7 (by decide)).1 5 (by decide)⟩

/-- Claim C7: a compression pointer whose 14-bit destination is at or
past the end of the buffer fails the decode with the
pointer-out-of-range error; a destination strictly inside the buffer
(before or after the pointer) is accepted: the walk continues from the
destination with one hop counted and the resume-offset fixed just after
the pointer, subject only to the hop cap and bounds checks of the
continued walk. -/
theorem c7_pointer_dest (data : List Byte) (c p : Nat) (hp : p < data.length)
    (hp1 : p + 1 < data.length)
    (hscan : plainScan data c = some (.ptrAt p)) :
    ((((data.get ⟨p, hp⟩).val &&& 0x3F) <<< 8) |||
        (data.get ⟨p + 1, hp1⟩).val ≥ data.length →
      getDomainName data c = .ok ("", c, some .invalidPtrDest)) ∧
    ((((data.get ⟨p, hp⟩).val &&& 0x3F) <<< 8) |||
        (data.get ⟨p + 1, hp1⟩).val < data.length →
      getDomainName data c =
        gdnFrom data c ((((data.get ⟨p, hp⟩).val &&& 0x3F) <<< 8) |||
          (data.get ⟨p + 1, hp1⟩).val) 1 (p + 2) (plainAcc data c)) := by
  unfold plainScan at hscan
  have corr := gdn_plain_corr data c (data.length + 1) c [] (by omega)
  have hjump := corr.2.1 p hscan
  constructor
  · intro hdest
    rw [getDomainName, hjump, gdn_step_ptr_oor data c p _ hp
      (by exact (plainScanF_ptr_byte data _ c p hscan).2) hp1 hdest]
  · intro hdest
    rw [getDomainName, hjump, gdn_step_ptr_jump data c p _ hp
      (by exact (plainScanF_ptr_byte data _ c p hscan).2) hp1 hdest]
    rw [List.nil_append]
    rfl

theorem c7_witness :
    getDomainName ptrOOR 0 = .ok ("", 0, some .invalidPtrDest) ∧
    getDomainName nameWithPtr 5 =
      gdnFrom nameWithPtr 5 0 1 7 (plainAcc nameWithPtr 5) := by
  have h1 := (c7_pointer_dest ptrOOR 0 0 (by decide) (by decide) (by decide)).1
    (by decide)
  have h2 := (c7_pointer_dest nameWithPtr 5 5 (by decide) (by decide)
    (by decide)).2 (by decide)
  exact ⟨h1, h2⟩

/-- Claim C10: whenever getDomainName fails with the too-many-pointers
error, the name it returns is the literal sentinel string (not the empty
string of every other failure path) and the offset it returns is the
position just after the first pointer's two bytes, which is strictly
greater than the initial cursor. -/
theorem c10_toomany_sentinel (data : List Byte) (c : Nat) (nm : String)
    (off : Nat) (h : getDomainName data c = .ok (nm, off, some .tooManyPtrs)) :
    nm = "Too many compression pointers" ∧
    ∃ p, plainScan data c = some (.ptrAt p) ∧ off = p + 2 ∧ c < off := by
  rw [getDomainName] at h
  have corr := gdn_plain_corr data c (data.length + 1) c [] (by omega)
  rcases hscan : plainScanF data (data.length + 1) c with _ | hit
  · obtain ⟨err, herr, hcase⟩ := corr.2.2 hscan
    rw [herr] at h
    simp only [Res.ok.injEq, Prod.mk.injEq, Option.some.injEq] at h
    obtain ⟨-, -, h3⟩ := h
    rcases hcase with rfl | rfl | rfl <;> simp at h3
  · cases hit with
    | term e =>
      have hterm := corr.1 e hscan
      rw [hterm] at h
      simp at h
    | ptrAt p =>
      have hjump := corr.2.1 p hscan
      rw [hjump] at h
      obtain ⟨hplt, hptr⟩ := plainScanF_ptr_byte data _ c p hscan
      have hle : c ≤ p := plainScanF_site_ge data _ c p hscan
      by_cases hp1 : p + 1 < data.length
      · by_cases hdest : (((data.get ⟨p, hplt⟩).val &&& 0x3F) <<< 8) |||
            (data.get ⟨p + 1, hp1⟩).val < data.length
        · rw [gdn_step_ptr_jump data c p _ hplt hptr hp1 hdest] at h
          rw [gdnFrom] at h
          obtain ⟨hnm, hoff⟩ :=
            (gdn_pafp_inv data c _ _ _ _ _ _ _ _ (by omega) (by omega) h).2 rfl
          exact ⟨hnm, p, by unfold plainScan; exact hscan, hoff, by omega⟩
        · rw [gdn_step_ptr_oor data c p _ hplt hptr hp1 (by omega)] at h
          simp at h
      · rw [gdn_step_ptr_short data c p _ hplt hptr (by omega)] at h
        simp at h

theorem c10_witness :
    "Too many compression pointers" = "Too many compression pointers" ∧
    ∃ p, plainScan selfPtr 0 = some (.ptrAt p) ∧ (2 : Nat) = p + 2 ∧ 0 < 2 :=
  c10_toomany_sentinel selfPtr 0 "Too many compression pointers" 2 (by decide)

/-- Claim C1, counterexample: on the all-zero 12-byte message the flags
word at offset 2 is 0, so bit 15 (the QR bit) is clear, yet the decoded
message has response = true: the response field is not decoded from bit
15 of the flags word. -/
theorem c1_counterexample :
    parseDNSMsg zeros12 = .ok (zeroRespMsg, none) ∧
    beUint16 zeros12 2 = some 0 ∧
    zeroRespMsg.response = true ∧ (0 : Nat).testBit 15 = false := by
  refine ⟨by decide, by decide, rfl, rfl⟩

/-- Claim C1 as amended: for any buffer of at least 12 bytes that
parseDNSMsg decodes (with or without a later section error), opcode,
rcode, authoritative, truncated, recursion-desired and
recursion-available are decoded from their fixed bit positions in the
big-endian flags word at offset 2 (bits 11-14, 0-3, 10, 9, 8 and 7
respectively), while the response field is the constant true regardless
of bit 15 of the flags word. -/
theorem c1_header_bits (data : List Byte) (m : dnsMsg) (e : Option DnsErr)
    (fl : Nat) (h : parseDNSMsg data = .ok (m, e)) (h12 : 12 ≤ data.length)
    (hfl : beUint16 data 2 = some fl) :
    m.response = true ∧ m.opcode = (fl >>> 11) % 16 ∧
    m.authoritative = fl.testBit 10 ∧ m.truncated = fl.testBit 9 ∧
    m.recursion_desired = fl.testBit 8 ∧ m.recursion_available = fl.testBit 7 ∧
    m.rcode = fl % 16 := by
  obtain ⟨i, fl', qn, an, authn, addn, -, e2, -, -, -, -, -, hresp, hop, hauth,
    htc, hrd, hra, hrc, -, -, -, -⟩ := parseDNSMsg_header data (by omega) m e h
  rw [hfl, Option.some.injEq] at e2
  subst e2
  refine ⟨hresp, ?_, ?_, ?_, ?_, ?_, ?_⟩
  · rw [hop, and_fifteen]
  · rw [hauth]
    exact itob_and_shift_testBit fl 0x0400 10 (by norm_num) (by decide)
  · rw [htc]
    exact itob_and_shift_testBit fl 0x0200 9 (by norm_num) (by decide)
  · rw [hrd]
    exact itob_and_shift_testBit fl 0x0100 8 (by norm_num) (by decide)
  · rw [hra]
    exact itob_and_shift_testBit fl 0x00F0 7 (by norm_num) (by decide)
  · rw [hrc, and_fifteen]

theorem c1_witness :
    zeroRespMsg.response = true ∧ zeroRespMsg.opcode = ((0 : Nat) >>> 11) % 16 ∧
    zeroRespMsg.authoritative = (0 : Nat).testBit 10 ∧
    zeroRespMsg.truncated = (0 : Nat).testBit 9 ∧
    zeroRespMsg.recursion_desired = (0 : Nat).testBit 8 ∧
    zeroRespMsg.recursion_available = (0 : Nat).testBit 7 ∧
    zeroRespMsg.rcode = (0 : Nat) % 16 :=
  c1_header_bits zeros12 zeroRespMsg none 0 (by decide) (by decide) (by decide)

/-- Claim C3: the name-decoder loop terminates on every buffer and
cursor (its iteration budget, which bounds 10 pointer hops plus strictly
forward label scanning, is never exhausted), and a compression pointer
that targets itself, the degenerate pointer cycle, makes getDomainName
return the distinguished too-many-compression-pointers error instead of
looping: the hop counter passes the cap of 10 and the decode fails. -/
theorem c3_termination :
    (∀ (data : List Byte) (c : Nat), getDomainName data c ≠ .oom) ∧
    (∀ (data : List Byte) (pos : Nat) (hpos : pos < data.length)
        (hpos1 : pos + 1 < data.length),
      (data.get ⟨pos, hpos⟩).val &&& 0xC0 = 0xC0 →
      (((data.get ⟨pos, hpos⟩).val &&& 0x3F) <<< 8) |||
        (data.get ⟨pos + 1, hpos1⟩).val = pos →
      getDomainName data pos =
        .ok ("Too many compression pointers", pos + 2, some .tooManyPtrs)) := by
  constructor
  · intro data c
    obtain ⟨v, hv⟩ := getDomainName_total data c
    rw [hv]
    simp
  · intro data pos hpos hpos1 hptr hdest
    rw [getDomainName, gdn_step_ptr_jump data pos pos [] hpos hptr hpos1
      (by rw [hdest]; exact hpos)]
    rw [hdest, gdnFrom]
    exact gdn_selfptr_loop data pos pos hpos hpos1 hptr hdest _ 1 (pos + 2) []
      (by omega) (by omega) (by omega) (by omega)

theorem c3_witness :
    getDomainName selfPtr 0 ≠ .oom ∧
    getDomainName selfPtr 0 =
      .ok ("Too many compression pointers", 2, some .tooManyPtrs) :=
  ⟨c3_termination.1 selfPtr 0,
   c3_termination.2 selfPtr 0 (by decide) (by decide) (by decide) (by decide)⟩

/-- Claim C4: a message decoded without error has exactly as many
questions, answers, authority records and additional records as the four
header count fields declare; parseDNSMsg never reports a
partially-filled message as success. -/
theorem c4_counts_match (data : List Byte) (m : dnsMsg)
    (h : parseDNSMsg data = .ok (m, none)) :
    m.question.length = m.question_num ∧ m.answer.length = m.answer_num ∧
    m.ns.length = m.authority_num ∧ m.extra.length = m.additional_num :=
  parseDNSMsg_counts data m h

theorem c4_witness :
    zeroRespMsg.question.length = zeroRespMsg.question_num ∧
    zeroRespMsg.answer.length = zeroRespMsg.answer_num ∧
    zeroRespMsg.ns.length = zeroRespMsg.authority_num ∧
    zeroRespMsg.extra.length = zeroRespMsg.additional_num :=
  c4_counts_match zeros12 zeroRespMsg (by decide)

/-- Claim C5: no run of the decoders performs an out-of-bounds access:
with Go's panicking indexing modelled explicitly (Res.panic), every run
of getDomainName, parseRR and parseDNSMsg on every buffer and cursor
returns an ordinary result, never a panic (and never exhausts the name
loop's budget). -/
theorem c5_no_panic (data : List Byte) :
    (∀ c, ∃ v, getDomainName data c = .ok v) ∧
    (∀ c, ∃ v, parseRR data c = .ok v) ∧
    (∃ v, parseDNSMsg data = .ok v) :=
  ⟨fun c => getDomainName_total data c, fun c => parseRR_total data c,
   parseDNSMsg_total data⟩

/-- Claim C6: the reference test message decodes to exactly the values
asserted by TestParseDNSMsgWithCompression: id 0x1234, flags 0x8180
(response, RD, RA set, rcode 0), the question test.example.com A IN, and
the two answers sub1/sub2.test.example.com, both type 1 class 1 TTL 225
rdlength 4, with rdata 192.0.2.1 and 192.0.2.2. -/
theorem c6_reference_message : parseDNSMsg c6bytes = .ok (c6msg, none) := by
  decide

/-- Claim C8: a label whose declared length makes it extend exactly to
the end of the buffer, leaving no room for a terminating zero byte,
makes getDomainName fail with the end-of-buffer truncation error rather
than succeed. -/
theorem c8_label_exact_end (data : List Byte) (pos : Nat)
    (hpos : pos < data.length) (hz : data.get ⟨pos, hpos⟩ ≠ (0 : Byte))
    (hlab : (data.get ⟨pos, hpos⟩).val &&& 0xC0 = 0x00)
    (hend : pos + 1 + (data.get ⟨pos, hpos⟩).val = data.length) :
    getDomainName data pos = .ok ("", pos, some .eofName) := by
  rw [getDomainName, gdn_step_label data pos pos 0 0 [] hpos hz hlab (by omega)
    (by omega)]
  exact gdn_step_eof data pos _ 0 0 _ (by omega)

theorem c8_witness : getDomainName labelToEnd 0 = .ok ("", 0, some .eofName) :=
  c8_label_exact_end labelToEnd 0 (by decide) (by decide) (by decide) (by decide)

/-- Claim C9: every buffer shorter than 12 bytes fails with the
header-too-short error and an untouched zero-value message, before any
field is read; for buffers of at least 12 bytes the header parse cannot
fail: whatever error the decode may later return is never the
header-too-short error. -/
theorem c9_header_check (data : List Byte) :
    (data.length < 12 → parseDNSMsg data = .ok ({}, some .headerTooShort)) ∧
    (12 ≤ data.length → ∀ m e, parseDNSMsg data = .ok (m, e) →
      e ≠ some .headerTooShort) := by
  constructor
  · intro h
    rw [parseDNSMsg, if_pos h]
  · intro h12 m e h
    rw [parseDNSMsg, if_neg (show ¬data.length < 12 by omega)] at h
    obtain ⟨w0, e0⟩ := beUint16_exists data 0 (by omega)
    obtain ⟨w2, e2⟩ := beUint16_exists data 2 (by omega)
    obtain ⟨w4, e4⟩ := beUint16_exists data 4 (by omega)
    obtain ⟨w6, e6⟩ := beUint16_exists data 6 (by omega)
    obtain ⟨w8, e8⟩ := beUint16_exists data 8 (by omega)
    obtain ⟨w10, e10⟩ := beUint16_exists data 10 (by omega)
    rw [e0, e2, e4, e6, e8, e10] at h
    simp only at h
    obtain ⟨⟨qs, c1, eq1⟩, hq⟩ := parseQLoop_total data w4 12 []
    rw [hq] at h
    cases eq1 with
    | some err =>
      simp only [Res.ok.injEq, Prod.mk.injEq] at h
      obtain ⟨-, h2⟩ := h
      subst h2
      have := parseQLoop_ne_hts data w4 12 [] qs c1 err hq
      simp [this]
    | none =>
      simp only at h
      obtain ⟨⟨ans, c2, ea⟩, ha⟩ := parseRRLoop_total data .eofAnswers w6 c1 []
      rw [ha] at h
      cases ea with
      | some err =>
        simp only [Res.ok.injEq, Prod.mk.injEq] at h
        obtain ⟨-, h2⟩ := h
        subst h2
        have := parseRRLoop_ne_hts data .eofAnswers (by simp) w6 c1 [] ans c2
          err ha
        simp [this]
      | none =>
        simp only at h
        obtain ⟨⟨nss, c3, en⟩, hn⟩ :=
          parseRRLoop_total data .eofAuthority w8 c2 []
        rw [hn] at h
        cases en with
        | some err =>
          simp only [Res.ok.injEq, Prod.mk.injEq] at h
          obtain ⟨-, h2⟩ := h
          subst h2
          have := parseRRLoop_ne_hts data .eofAuthority (by simp) w8 c2 [] nss
            c3 err hn
          simp [this]
        | none =>
          simp only at h
          obtain ⟨⟨ext, c4, ex⟩, hx⟩ :=
            parseRRLoop_total data .eofAdditional w10 c3 []
          rw [hx] at h
          cases ex with
          | some err =>
            simp only [Res.ok.injEq, Prod.mk.injEq] at h
            obtain ⟨-, h2⟩ := h
            subst h2
            have := parseRRLoop_ne_hts data .eofAdditional (by simp) w10 c3 []
              ext c4 err hx
            simp [this]
          | none =>
            simp only [Res.ok.injEq, Prod.mk.injEq] at h
            obtain ⟨-, h2⟩ := h
            subst h2
            simp

theorem c9_witness :
    parseDNSMsg ([] : List Byte) = .ok ({}, some .headerTooShort) ∧
    (none : Option DnsErr) ≠ some .headerTooShort :=
  ⟨(c9_header_check []).1 (by decide),
   (c9_header_check zeros12).2 (by decide) zeroRespMsg none (by decide)⟩
